import Mathlib

/-!
Shallow embedding of `src/fix_react_hooks.py`.

The script reads one file, and when the substring `useCallback` is absent it
applies two `re.sub` substitutions to the content:

  pattern 1 : `(import\s+\{\s*useEffect,\s*useState\s*\})`  ->  `\1, useCallback}`
  pattern 2 : `(import\s+\{\s*useState,\s*useEffect\s*\})`  ->  `\1, useCallback}`

It writes the file back exactly when the content changed, prints a report line,
and the `__main__` block exits 0 on change and 1 otherwise; with fewer than two
argv entries it prints a usage line and exits 1.

Both regexes are a chain of literals separated by `\s+` / `\s*`, and every
whitespace class is immediately followed by a literal that starts with a
non-whitespace character, so greedy matching coincides with maximal munch and
matching at a given position is deterministic.  `re.sub` replaces the leftmost
match, then continues scanning after the end of the match (the replacement text
is not rescanned); we model this with a fuel-indexed left-to-right scan, where
fuel = length of the input suffices because every successful match consumes at
least the six characters of `import`.
-/

set_option maxRecDepth 20000

/-- Python's `\s` class for `str` patterns: the ASCII whitespace characters
together with the Unicode whitespace code points Python's `re` accepts. -/
def isPySpace (c : Char) : Bool :=
  c = ' ' || c = '\t' || c = '\n' || c = '\r' || c = '\x0b' || c = '\x0c' ||
  c = '\x1c' || c = '\x1d' || c = '\x1e' || c = '\x1f' || c = '\x85' || c = '\xa0' ||
  c = ' ' || (0x2000 ≤ c.toNat && c.toNat ≤ 0x200a) || c = ' ' ||
  c = ' ' || c = ' ' || c = ' ' || c = '　'

/-- Match a literal character sequence at the head of `s`; on success return
the remainder. -/
def lit : List Char → List Char → Option (List Char)
  | [], s => some s
  | _ :: _, [] => none
  | p :: ps, c :: cs => if c = p then lit ps cs else none

/-- `\s*` : drop the maximal run of whitespace. -/
def wsStar (s : List Char) : List Char := s.dropWhile isPySpace

/-- `\s+` : at least one whitespace character, then the maximal run. -/
def wsPlus : List Char → Option (List Char)
  | [] => none
  | c :: cs => if isPySpace c then some (wsStar cs) else none

def importLit : List Char := "import".toList
def useEffectLit : List Char := "useEffect".toList
def useStateLit : List Char := "useState".toList
def ucbLit : List Char := "useCallback".toList

/-- The text inserted by the replacement template `\1, useCallback}` after the
matched group. -/
def replIns : List Char := ", useCallback\x7d".toList

/-- Match `import\s+\{\s*<a>,\s*<b>\s*\}` at the head of `s`; on success return
the remainder after the closing brace. -/
def matchReactImport (a b : List Char) (s : List Char) : Option (List Char) :=
  (lit importLit s).bind fun s1 =>
  (wsPlus s1).bind fun s2 =>
  (lit ['\x7b'] s2).bind fun s3 =>
  (lit (a ++ [',']) (wsStar s3)).bind fun s4 =>
  (lit b (wsStar s4)).bind fun s5 =>
  lit ['\x7d'] (wsStar s5)

/-- Pattern 1 as a positional matcher: number of characters consumed. -/
def matchPat1 (s : List Char) : Option Nat :=
  (matchReactImport useEffectLit useStateLit s).map fun r => s.length - r.length

/-- Pattern 2 as a positional matcher: number of characters consumed. -/
def matchPat2 (s : List Char) : Option Nat :=
  (matchReactImport useStateLit useEffectLit s).map fun r => s.length - r.length

/-- One left-to-right `re.sub` scan: at each position try the pattern; on a
match keep the matched text, insert `repl` after it and resume after the match;
otherwise keep the character and move one position right. -/
def subAllAux (pat : List Char → Option Nat) (repl : List Char) :
    Nat → List Char → List Char
  | 0, s => s
  | _ + 1, [] => []
  | fuel + 1, c :: cs =>
    match pat (c :: cs) with
    | some n => (c :: cs).take n ++ repl ++ subAllAux pat repl fuel ((c :: cs).drop n)
    | none => c :: subAllAux pat repl fuel cs

/-- `re.sub(pat, \1 ++ repl, s)` for our patterns. -/
def reSubAll (pat : List Char → Option Nat) (repl : List Char) (s : List Char) :
    List Char :=
  subAllAux pat repl s.length s

/-- The in-memory transformation of `fix_react_hook_dependencies`: the guard
`'useCallback' not in content` is a plain substring test, and when it passes
the two substitutions are applied in source order.  The step-2 `patterns` list
is built by the script but never applied to the content. -/
def fixContent (content : List Char) : List Char :=
  if ucbLit <:+: content then content
  else reSubAll matchPat2 replIns (reSubAll matchPat1 replIns content)

/-- The dead step-2 rule list of the script (`patterns`, lines 30-37), defined
but never run against the content. -/
def patterns : List (String × String) :=
  [("(  useEffect\\(\\(\\) => \\\x7b\\n    )(\\w+)\\(\\);(\\n  \\\x7d, \\[)([^\\]]+)(\\]\\);)\\n\\n(  const \\2 = async \\(\\) => \\\x7b)",
    "\\6 = useCallback(async () => \x7b"),
   ("(  const )(\\w+)( = async \\(\\) => \\\x7b[^\x7d]+\\\x7d[^\x7d]+\\\x7d;)\\n\\n  useEffect\\(\\(\\) => \\\x7b\\n    \\2\\(\\);\\n  \\\x7d, \\[([^\\]]+)\\]\\);",
    "\\1\\2 = useCallback(async () => \x7b\\n    // function body\\n  \x7d, [\\4]);\\n\\n  useEffect(() => \x7b\\n    \\2();\\n  \x7d, [\\2]);")]

/-- Result of one run of `fix_react_hook_dependencies` on a readable file,
as observed through the `__main__` block: final content, whether the file was
rewritten, what the report line said, and the process exit status. -/
structure PatchRun where
  output : List Char
  wrote : Bool
  reportChanged : Bool
  exitCode : Nat
  deriving DecidableEq

/-- `fix_react_hook_dependencies` on the content read from the file: the new
content and the `content != original_content` result it returns. -/
def fix_react_hook_dependencies (content : List Char) : List Char × Bool :=
  let c := fixContent content
  (c, c != content)

/-- Full observable behaviour of one invocation on a readable file with the
given content: the file is rewritten iff the content changed, the report says
so, and `sys.exit(0 if fixed else 1)` sets the status. -/
def runOnFile (content : List Char) : PatchRun :=
  let r := fix_react_hook_dependencies content
  { output := r.1, wrote := r.2, reportChanged := r.2,
    exitCode := if r.2 then 0 else 1 }

/-- Observable behaviour of the whole process. -/
structure MainResult where
  exitCode : Nat
  printedUsage : Bool
  openedFile : Bool
  written : Option (List Char)
  uncaughtError : Bool
  deriving DecidableEq

/-- The `__main__` block: with fewer than two argv entries print the usage line
and exit 1; otherwise open `sys.argv[1]` (an unreadable file raises an
exception that no handler catches, so the interpreter terminates with status 1
without writing anything) and run the patcher. -/
def mainModel (argv : List String) (fs : String → Option (List Char)) :
    MainResult :=
  match argv with
  | _prog :: path :: _ =>
    match fs path with
    | none =>
      { exitCode := 1, printedUsage := false, openedFile := true,
        written := none, uncaughtError := true }
    | some content =>
      let r := runOnFile content
      { exitCode := r.exitCode, printedUsage := false, openedFile := true,
        written := if r.wrote then some r.output else none,
        uncaughtError := false }
  | _ =>
    { exitCode := 1, printedUsage := true, openedFile := false,
      written := none, uncaughtError := false }

/-- Does the pattern match at some position of `s`?  (Left-to-right scan over
all suffixes, the same positions `re.sub` tries.) -/
def anyMatch (pat : List Char → Option Nat) : List Char → Bool
  | [] => (pat []).isSome
  | c :: cs => (pat (c :: cs)).isSome || anyMatch pat cs

/-- Relation between an input and an output of one `re.sub` pass with
replacement template `\1 ++ repl`: the output is the input with, at some
pattern-matched segments, the matched text kept verbatim and `repl` inserted
right after it; every other character is preserved verbatim in order. -/
inductive SubRel (pat : List Char → Option Nat) (repl : List Char) :
    List Char → List Char → Prop
  | nil : SubRel pat repl [] []
  | skip (c : Char) {s t : List Char} : SubRel pat repl s t →
      SubRel pat repl (c :: s) (c :: t)
  | matched (m rest t : List Char) : pat (m ++ rest) = some m.length →
      SubRel pat repl rest t → SubRel pat repl (m ++ rest) (m ++ repl ++ t)

/-- The convenient shape of both patterns: `import`, whitespace, `{`,
optional whitespace, the first symbol and the comma, optional whitespace,
the second symbol, optional whitespace, `}`. -/
def importShape (a b w1 w2 w3 w4 : List Char) : List Char :=
  importLit ++ w1 ++ ['\x7b'] ++ w2 ++ (a ++ [',']) ++ w3 ++ b ++ w4 ++ ['\x7d']

theorem lit_eq_some (p : List Char) :
    ∀ s r, lit p s = some r → s = p ++ r := by
  induction p with
  | nil =>
    intro s r h
    simp only [lit, Option.some.injEq] at h
    simp [h]
  | cons x ps ih =>
    intro s r h
    cases s with
    | nil => simp [lit] at h
    | cons c cs =>
      by_cases hc : c = x
      · subst hc
        simp only [lit, if_pos rfl] at h
        simpa using ih cs r h
      · simp [lit, hc] at h

theorem lit_self_append (p r : List Char) : lit p (p ++ r) = some r := by
  induction p with
  | nil => rfl
  | cons x ps ih => simp [lit, ih]

theorem wsStar_suffix (s : List Char) : wsStar s <:+ s :=
  List.dropWhile_suffix isPySpace

theorem wsPlus_spec {s r : List Char} (h : wsPlus s = some r) :
    r <:+ s ∧ r.length < s.length := by
  cases s with
  | nil => simp [wsPlus] at h
  | cons c cs =>
    by_cases hc : isPySpace c
    · simp only [wsPlus, if_pos hc, Option.some.injEq] at h
      subst h
      have h1 : wsStar cs <:+ cs := wsStar_suffix cs
      have h2 : cs <:+ c :: cs := ⟨[c], rfl⟩
      refine ⟨h1.trans h2, ?_⟩
      have := h1.length_le
      simpa using Nat.lt_succ_of_le this
    · simp [wsPlus, hc] at h

theorem lit_suffix {p s r : List Char} (h : lit p s = some r) : r <:+ s :=
  ⟨p, (lit_eq_some p s r h).symm⟩

theorem matchReactImport_spec {a b s r : List Char}
    (h : matchReactImport a b s = some r) :
    r <:+ s ∧ r.length < s.length := by
  simp only [matchReactImport, Option.bind_eq_some] at h
  obtain ⟨s1, h1, s2, h2, s3, h3, s4, h4, s5, h5, h6⟩ := h
  have e1 : s = importLit ++ s1 := lit_eq_some _ _ _ h1
  have p2 := wsPlus_spec h2
  have p3 : s3 <:+ s2 := lit_suffix h3
  have p4 : s4 <:+ s3 := (lit_suffix h4).trans (wsStar_suffix s3)
  have p5 : s5 <:+ s4 := (lit_suffix h5).trans (wsStar_suffix s4)
  have p6 : r <:+ s5 := (lit_suffix h6).trans (wsStar_suffix s5)
  have hsuffix1 : r <:+ s1 :=
    ((((p6.trans p5).trans p4).trans p3).trans p2.1)
  have hlen : r.length < s1.length :=
    lt_of_le_of_lt ((((p6.trans p5).trans p4).trans p3).length_le) p2.2
  constructor
  · exact hsuffix1.trans ⟨importLit, e1.symm⟩
  · have : s.length = importLit.length + s1.length := by
      rw [e1, List.length_append]
    omega

theorem matchReactImport_n_spec {a b s : List Char} {n : Nat}
    (h : (matchReactImport a b s).map (fun r => s.length - r.length) = some n) :
    1 ≤ n ∧ n ≤ s.length := by
  rw [Option.map_eq_some'] at h
  obtain ⟨r, hr, hn⟩ := h
  have := matchReactImport_spec hr
  omega

theorem matchPat1_spec {s : List Char} {n : Nat} (h : matchPat1 s = some n) :
    1 ≤ n ∧ n ≤ s.length := matchReactImport_n_spec h

theorem matchPat2_spec {s : List Char} {n : Nat} (h : matchPat2 s = some n) :
    1 ≤ n ∧ n ≤ s.length := matchReactImport_n_spec h

theorem subAllAux_nil (pat : List Char → Option Nat) (repl : List Char) :
    ∀ fuel, subAllAux pat repl fuel [] = [] := by
  intro fuel
  cases fuel <;> rfl

theorem subAllAux_no_match (pat : List Char → Option Nat) (repl : List Char) :
    ∀ s, anyMatch pat s = false → ∀ fuel, subAllAux pat repl fuel s = s := by
  intro s
  induction s with
  | nil => intro _ fuel; exact subAllAux_nil pat repl fuel
  | cons c cs ih =>
    intro h fuel
    have h1 : pat (c :: cs) = none := by
      cases hp : pat (c :: cs) with
      | none => rfl
      | some n => rw [anyMatch, hp] at h; simp at h
    have h2 : anyMatch pat cs = false := by
      rw [anyMatch, h1] at h
      simpa using h
    cases fuel with
    | zero => rfl
    | succ fuel =>
      simp only [subAllAux, h1]
      rw [ih h2 fuel]

theorem subAllAux_eq_or_infix (pat : List Char → Option Nat) (repl : List Char) :
    ∀ fuel s, subAllAux pat repl fuel s = s ∨
      repl <:+: subAllAux pat repl fuel s := by
  intro fuel
  induction fuel with
  | zero => intro s; exact Or.inl rfl
  | succ fuel ih =>
    intro s
    cases s with
    | nil => exact Or.inl rfl
    | cons c cs =>
      simp only [subAllAux]
      cases hp : pat (c :: cs) with
      | some n =>
        right
        exact ⟨(c :: cs).take n, subAllAux pat repl fuel ((c :: cs).drop n),
          by simp [List.append_assoc]⟩
      | none =>
        rcases ih cs with h | h
        · left; rw [h]
        · right
          obtain ⟨pre, post, hpp⟩ := h
          exact ⟨c :: pre, post, by simp [← hpp]⟩

theorem SubRel.self (pat : List Char → Option Nat) (repl : List Char) :
    ∀ s, SubRel pat repl s s := by
  intro s
  induction s with
  | nil => exact SubRel.nil
  | cons c cs ih => exact SubRel.skip c ih

theorem subAllAux_subRel (pat : List Char → Option Nat) (repl : List Char)
    (hpat : ∀ s n, pat s = some n → n ≤ s.length) :
    ∀ fuel s, SubRel pat repl s (subAllAux pat repl fuel s) := by
  intro fuel
  induction fuel with
  | zero => intro s; exact SubRel.self pat repl s
  | succ fuel ih =>
    intro s
    cases s with
    | nil => exact SubRel.nil
    | cons c cs =>
      simp only [subAllAux]
      cases hp : pat (c :: cs) with
      | some n =>
        have hle : n ≤ (c :: cs).length := hpat _ _ hp
        have hsplit : (c :: cs).take n ++ (c :: cs).drop n = c :: cs :=
          List.take_append_drop n (c :: cs)
        have hlen : ((c :: cs).take n).length = n := by
          rw [List.length_take]
          omega
        have hm : pat ((c :: cs).take n ++ (c :: cs).drop n) =
            some ((c :: cs).take n).length := by
          rw [hsplit, hlen, hp]
        have := @SubRel.matched pat repl
          ((c :: cs).take n) ((c :: cs).drop n)
          (subAllAux pat repl fuel ((c :: cs).drop n)) hm (ih _)
        rwa [hsplit] at this
      | none => exact SubRel.skip c (ih cs)

theorem reSubAll_full_match {pat : List Char → Option Nat} {repl s : List Char}
    (hne : s ≠ []) (h : pat s = some s.length) :
    reSubAll pat repl s = s ++ repl := by
  cases s with
  | nil => exact absurd rfl hne
  | cons c cs =>
    have e1 : reSubAll pat repl (c :: cs) =
        subAllAux pat repl (cs.length + 1) (c :: cs) := rfl
    rw [e1]
    simp only [subAllAux, h]
    rw [List.take_length, List.drop_length, subAllAux_nil, List.append_nil]

theorem ucb_infix_repl : ucbLit <:+: replIns := by decide

theorem fixContent_of_contains {c : List Char} (h : ucbLit <:+: c) :
    fixContent c = c := by
  simp [fixContent, h]

theorem fixContent_eq_or_contains (c : List Char) :
    fixContent c = c ∨ ucbLit <:+: fixContent c := by
  by_cases h : ucbLit <:+: c
  · left; exact fixContent_of_contains h
  · have hfc : fixContent c =
        reSubAll matchPat2 replIns (reSubAll matchPat1 replIns c) := by
      simp [fixContent, h]
    rcases subAllAux_eq_or_infix matchPat2 replIns
        (reSubAll matchPat1 replIns c).length (reSubAll matchPat1 replIns c)
      with h2 | h2
    · rcases subAllAux_eq_or_infix matchPat1 replIns c.length c with h1 | h1
      · left
        rw [hfc]
        show reSubAll matchPat2 replIns (reSubAll matchPat1 replIns c) = c
        rw [show reSubAll matchPat1 replIns c = c from h1] at h2 ⊢
        exact h2
      · right
        rw [hfc]
        show ucbLit <:+: reSubAll matchPat2 replIns (reSubAll matchPat1 replIns c)
        rw [show reSubAll matchPat2 replIns (reSubAll matchPat1 replIns c) =
          reSubAll matchPat1 replIns c from h2]
        exact ucb_infix_repl.trans h1
    · right
      rw [hfc]
      exact ucb_infix_repl.trans h2

theorem fixContent_idem (c : List Char) :
    fixContent (fixContent c) = fixContent c := by
  rcases fixContent_eq_or_contains c with h | h
  · rw [h, h]
  · exact fixContent_of_contains h

theorem runOnFile_output (c : List Char) : (runOnFile c).output = fixContent c :=
  rfl

theorem runOnFile_exitCode (c : List Char) :
    (runOnFile c).exitCode = if fixContent c = c then 1 else 0 := by
  by_cases h : fixContent c = c <;>
    simp [runOnFile, fix_react_hook_dependencies, h]

theorem runOnFile_wrote (c : List Char) :
    (runOnFile c).wrote = if fixContent c = c then false else true := by
  by_cases h : fixContent c = c <;>
    simp [runOnFile, fix_react_hook_dependencies, h]

theorem wsStar_all_append (w : List Char) (x : Char) (l : List Char)
    (hw : ∀ c ∈ w, isPySpace c = true) (hx : isPySpace x = false) :
    wsStar (w ++ x :: l) = x :: l := by
  induction w with
  | nil => simp [wsStar, List.dropWhile_cons, hx]
  | cons c w ih =>
    have hc : isPySpace c = true := hw c (List.mem_cons_self c w)
    have hrest : ∀ d ∈ w, isPySpace d = true := fun d hd =>
      hw d (List.mem_cons_of_mem c hd)
    simp only [List.cons_append, wsStar, List.dropWhile_cons, hc, if_true]
    exact ih hrest

theorem importShape_ne_nil (a b w1 w2 w3 w4 : List Char) :
    importShape a b w1 w2 w3 w4 ≠ [] := by
  intro h
  have hl := congrArg List.length h
  have h6 : importLit.length = 6 := by decide
  simp [importShape, h6] at hl

theorem matchReactImport_shape (ca cb : Char) (as bs : List Char)
    (hca : isPySpace ca = false) (hcb : isPySpace cb = false)
    (cw : Char) (w1' w2 w3 w4 : List Char)
    (hcw : isPySpace cw = true)
    (h1 : ∀ c ∈ w1', isPySpace c = true) (h2 : ∀ c ∈ w2, isPySpace c = true)
    (h3 : ∀ c ∈ w3, isPySpace c = true) (h4 : ∀ c ∈ w4, isPySpace c = true) :
    matchReactImport (ca :: as) (cb :: bs)
      (importShape (ca :: as) (cb :: bs) (cw :: w1') w2 w3 w4) = some [] := by
  have hbrace : isPySpace '\x7b' = false := by decide
  have hclose : isPySpace '\x7d' = false := by decide
  have h_shape : importShape (ca :: as) (cb :: bs) (cw :: w1') w2 w3 w4 =
      importLit ++ (cw :: (w1' ++ '\x7b' ::
        (w2 ++ ca :: (as ++ ',' ::
          (w3 ++ cb :: (bs ++ (w4 ++ ['\x7d']))))))) := by
    simp [importShape, List.append_assoc]
  rw [h_shape]
  simp only [matchReactImport, lit_self_append, Option.some_bind]
  rw [show wsPlus (cw :: (w1' ++ '\x7b' ::
        (w2 ++ ca :: (as ++ ',' :: (w3 ++ cb :: (bs ++ (w4 ++ ['\x7d']))))))) =
      some (wsStar (w1' ++ '\x7b' ::
        (w2 ++ ca :: (as ++ ',' :: (w3 ++ cb :: (bs ++ (w4 ++ ['\x7d']))))))) from by
    simp [wsPlus, hcw]]
  rw [wsStar_all_append w1' '\x7b' _ h1 hbrace]
  simp only [Option.some_bind]
  rw [show lit ['\x7b'] ('\x7b' ::
      (w2 ++ ca :: (as ++ ',' :: (w3 ++ cb :: (bs ++ (w4 ++ ['\x7d'])))))) =
    some (w2 ++ ca :: (as ++ ',' :: (w3 ++ cb :: (bs ++ (w4 ++ ['\x7d']))))) from by
    simp [lit]]
  simp only [Option.some_bind]
  rw [wsStar_all_append w2 ca _ h2 hca]
  rw [show ca :: (as ++ ',' :: (w3 ++ cb :: (bs ++ (w4 ++ ['\x7d'])))) =
    ((ca :: as) ++ [',']) ++ (w3 ++ cb :: (bs ++ (w4 ++ ['\x7d']))) from by
    simp]
  rw [lit_self_append]
  simp only [Option.some_bind]
  rw [wsStar_all_append w3 cb _ h3 hcb]
  rw [show cb :: (bs ++ (w4 ++ ['\x7d'])) = (cb :: bs) ++ (w4 ++ ['\x7d']) from by
    simp]
  rw [lit_self_append]
  simp only [Option.some_bind]
  rw [show (w4 ++ ['\x7d'] : List Char) = w4 ++ '\x7d' :: [] from rfl]
  rw [wsStar_all_append w4 '\x7d' [] h4 hclose]
  simp [lit]

theorem matchPat1_shape (cw : Char) (w1' w2 w3 w4 : List Char)
    (hcw : isPySpace cw = true)
    (h1 : ∀ c ∈ w1', isPySpace c = true) (h2 : ∀ c ∈ w2, isPySpace c = true)
    (h3 : ∀ c ∈ w3, isPySpace c = true) (h4 : ∀ c ∈ w4, isPySpace c = true) :
    matchPat1 (importShape useEffectLit useStateLit (cw :: w1') w2 w3 w4) =
      some (importShape useEffectLit useStateLit (cw :: w1') w2 w3 w4).length := by
  have hE : useEffectLit = 'u' :: "seEffect".toList := by decide
  have hS : useStateLit = 'u' :: "seState".toList := by decide
  have hm := matchReactImport_shape 'u' 'u' "seEffect".toList "seState".toList
    (by decide) (by decide) cw w1' w2 w3 w4 hcw h1 h2 h3 h4
  simp only [matchPat1]
  rw [hE, hS, hm]
  simp

theorem matchPat2_shape (cw : Char) (w1' w2 w3 w4 : List Char)
    (hcw : isPySpace cw = true)
    (h1 : ∀ c ∈ w1', isPySpace c = true) (h2 : ∀ c ∈ w2, isPySpace c = true)
    (h3 : ∀ c ∈ w3, isPySpace c = true) (h4 : ∀ c ∈ w4, isPySpace c = true) :
    matchPat2 (importShape useStateLit useEffectLit (cw :: w1') w2 w3 w4) =
      some (importShape useStateLit useEffectLit (cw :: w1') w2 w3 w4).length := by
  have hE : useEffectLit = 'u' :: "seEffect".toList := by decide
  have hS : useStateLit = 'u' :: "seState".toList := by decide
  have hm := matchReactImport_shape 'u' 'u' "seState".toList "seEffect".toList
    (by decide) (by decide) cw w1' w2 w3 w4 hcw h1 h2 h3 h4
  simp only [matchPat2]
  rw [hE, hS, hm]
  simp

/-- C1: on a file whose entire content is
`import { useEffect, useState } from "react";` the patcher rewrites it to
`import { useEffect, useState }, useCallback} from "react";` and exits 0;
symmetrically for the `useState, useEffect` ordering. -/
theorem claim_C1 :
    runOnFile "import \x7b useEffect, useState \x7d from \"react\";".toList =
      { output := "import \x7b useEffect, useState \x7d, useCallback\x7d from \"react\";".toList,
        wrote := true, reportChanged := true, exitCode := 0 } ∧
    runOnFile "import \x7b useState, useEffect \x7d from \"react\";".toList =
      { output := "import \x7b useState, useEffect \x7d, useCallback\x7d from \"react\";".toList,
        wrote := true, reportChanged := true, exitCode := 0 } := by
  decide

/-- C2: the patching transformation is idempotent: a second run on the content
produced by a first run leaves it byte-identical and exits with status 1. -/
theorem claim_C2 (c : List Char) :
    (runOnFile ((runOnFile c).output)).output = (runOnFile c).output ∧
    (runOnFile ((runOnFile c).output)).exitCode = 1 := by
  constructor
  · rw [runOnFile_output, runOnFile_output, fixContent_idem]
  · rw [runOnFile_exitCode, runOnFile_output, if_pos (fixContent_idem c)]

/-- C3: any content containing the literal substring `useCallback` anywhere is
left completely unmodified, nothing is written, and the process exits 1. -/
theorem claim_C3 (c : List Char) (h : ucbLit <:+: c) :
    runOnFile c =
      { output := c, wrote := false, reportChanged := false, exitCode := 1 } := by
  have hc := fixContent_of_contains h
  simp [runOnFile, fix_react_hook_dependencies, hc]

/-- Witness for C3: a file where `useCallback` occurs only in a comment keeps
its import line untouched and exits 1. -/
theorem claim_C3_witness :
    ucbLit <:+:
      "// useCallback\nimport \x7b useEffect, useState \x7d from \"react\";".toList ∧
    runOnFile
      "// useCallback\nimport \x7b useEffect, useState \x7d from \"react\";".toList =
      { output :=
          "// useCallback\nimport \x7b useEffect, useState \x7d from \"react\";".toList,
        wrote := false, reportChanged := false, exitCode := 1 } :=
  ⟨by decide, claim_C3 _ (by decide)⟩

/-- C4: in every invocation the file is written exactly when the patched
content differs from what was read, and is left untouched when it does not. -/
theorem claim_C4 (c : List Char) :
    ((runOnFile c).wrote = true ↔ (runOnFile c).output ≠ c) ∧
    ((runOnFile c).wrote = false ↔ (runOnFile c).output = c) := by
  by_cases h : fixContent c = c <;>
    simp [runOnFile_wrote, runOnFile_output, h]

/-- C5: the process exit status is 0 iff the patched content differs from the
original; whenever the content is unchanged the exit status is 1. -/
theorem claim_C5 (c : List Char) :
    ((runOnFile c).exitCode = 0 ↔ (runOnFile c).output ≠ c) ∧
    (runOnFile c).exitCode = (if (runOnFile c).output = c then 1 else 0) := by
  by_cases h : fixContent c = c <;>
    simp [runOnFile_exitCode, runOnFile_output, h]

/-- C6: content on which neither import pattern matches anywhere is returned
byte-identical, reported as unchanged, not written, and the process exits 1. -/
theorem claim_C6 (c : List Char) (h1 : anyMatch matchPat1 c = false)
    (h2 : anyMatch matchPat2 c = false) :
    runOnFile c =
      { output := c, wrote := false, reportChanged := false, exitCode := 1 } := by
  have hfc : fixContent c = c := by
    by_cases h : ucbLit <:+: c
    · exact fixContent_of_contains h
    · have e1 : reSubAll matchPat1 replIns c = c :=
        subAllAux_no_match matchPat1 replIns c h1 c.length
      have e2 : reSubAll matchPat2 replIns c = c :=
        subAllAux_no_match matchPat2 replIns c h2 c.length
      simp [fixContent, h, e1, e2]
  simp [runOnFile, fix_react_hook_dependencies, hfc]

/-- Witness for C6: `hello world` matches neither pattern and is returned
unchanged with exit status 1. -/
theorem claim_C6_witness :
    anyMatch matchPat1 "hello world".toList = false ∧
    anyMatch matchPat2 "hello world".toList = false ∧
    runOnFile "hello world".toList =
      { output := "hello world".toList, wrote := false, reportChanged := false,
        exitCode := 1 } :=
  ⟨by decide, by decide, claim_C6 _ (by decide) (by decide)⟩

/-- C7: invoked with only the program name, the process prints the usage line
and exits 1 without touching any file. -/
theorem claim_C7 (prog : String) (fs : String → Option (List Char)) :
    mainModel [prog] fs =
      { exitCode := 1, printedUsage := true, openedFile := false,
        written := none, uncaughtError := false } := rfl

/-- C8: when the target file cannot be opened or read, the error is not caught
anywhere: it propagates, the process terminates with a non-zero status, and
nothing is written. -/
theorem claim_C8 (prog path : String) (rest : List String)
    (fs : String → Option (List Char)) (h : fs path = none) :
    mainModel (prog :: path :: rest) fs =
      { exitCode := 1, printedUsage := false, openedFile := true,
        written := none, uncaughtError := true } ∧
    (mainModel (prog :: path :: rest) fs).exitCode ≠ 0 ∧
    (mainModel (prog :: path :: rest) fs).written = none := by
  refine ⟨?_, ?_, ?_⟩ <;> simp [mainModel, h]

/-- Witness for C8: running on a missing file in an empty file system reports
the uncaught error, exits 1 and writes nothing. -/
theorem claim_C8_witness :
    ((fun _ => none : String → Option (List Char)) "missing.js" = none) ∧
    (mainModel ["fix_react_hooks.py", "missing.js"] (fun _ => none) =
      { exitCode := 1, printedUsage := false, openedFile := true,
        written := none, uncaughtError := true } ∧
    (mainModel ["fix_react_hooks.py", "missing.js"]
        (fun _ => none)).exitCode ≠ 0 ∧
    (mainModel ["fix_react_hooks.py", "missing.js"]
        (fun _ => none)).written = none) :=
  ⟨rfl, claim_C8 "fix_react_hooks.py" "missing.js" [] (fun _ => none) rfl⟩

/-- C9: the only transformation ever applied is the step-1 import insertion:
the output is related to the input by two `SubRel` passes, which keep every
byte outside the pattern-matched import regions verbatim and only insert
`, useCallback}` after matched regions; the step-2 restructuring rules are
never applied. -/
theorem claim_C9 (c : List Char) :
    ∃ mid, SubRel matchPat1 replIns c mid ∧
      SubRel matchPat2 replIns mid ((runOnFile c).output) := by
  rw [runOnFile_output]
  by_cases h : ucbLit <:+: c
  · refine ⟨c, SubRel.self _ _ c, ?_⟩
    rw [fixContent_of_contains h]
    exact SubRel.self _ _ c
  · refine ⟨reSubAll matchPat1 replIns c, ?_, ?_⟩
    · exact subAllAux_subRel matchPat1 replIns
        (fun s n hs => (matchPat1_spec hs).2) c.length c
    · have hfc : fixContent c =
          reSubAll matchPat2 replIns (reSubAll matchPat1 replIns c) := by
        simp [fixContent, h]
      rw [hfc]
      exact subAllAux_subRel matchPat2 replIns
        (fun s n hs => (matchPat2_spec hs).2) _ _

/-- C10: the two import patterns are matched with flexible whitespace: any
nonempty whitespace run after `import` and arbitrary (possibly empty)
whitespace runs after the brace, after the comma and after the second symbol
are accepted, in both symbol orderings, and the matched shape gets
`, useCallback}` appended; moreover the substitution is global: a content with
two matching occurrences (one without spaces, one multi-line) has both
rewritten. -/
theorem claim_C10 (w1 w2 w3 w4 : List Char) (hw1 : w1 ≠ [])
    (h1 : ∀ c ∈ w1, isPySpace c = true) (h2 : ∀ c ∈ w2, isPySpace c = true)
    (h3 : ∀ c ∈ w3, isPySpace c = true) (h4 : ∀ c ∈ w4, isPySpace c = true) :
    reSubAll matchPat1 replIns (importShape useEffectLit useStateLit w1 w2 w3 w4) =
      importShape useEffectLit useStateLit w1 w2 w3 w4 ++ replIns ∧
    reSubAll matchPat2 replIns (importShape useStateLit useEffectLit w1 w2 w3 w4) =
      importShape useStateLit useEffectLit w1 w2 w3 w4 ++ replIns ∧
    reSubAll matchPat1 replIns
      "import \x7buseEffect,useState\x7d;\nimport \x7b\n  useEffect,\n  useState\n\x7d;".toList =
      "import \x7buseEffect,useState\x7d, useCallback\x7d;\nimport \x7b\n  useEffect,\n  useState\n\x7d, useCallback\x7d;".toList := by
  obtain ⟨cw, w1', rfl⟩ : ∃ cw w1', w1 = cw :: w1' := by
    cases w1 with
    | nil => exact absurd rfl hw1
    | cons cw w1' => exact ⟨cw, w1', rfl⟩
  have hcw : isPySpace cw = true := h1 cw (List.mem_cons_self _ _)
  have hw1' : ∀ c ∈ w1', isPySpace c = true := fun c hc =>
    h1 c (List.mem_cons_of_mem _ hc)
  refine ⟨?_, ?_, by decide⟩
  · exact reSubAll_full_match (importShape_ne_nil _ _ _ _ _ _)
      (matchPat1_shape cw w1' w2 w3 w4 hcw hw1' h2 h3 h4)
  · exact reSubAll_full_match (importShape_ne_nil _ _ _ _ _ _)
      (matchPat2_shape cw w1' w2 w3 w4 hcw hw1' h2 h3 h4)

/-- Witness for C10: a concrete instantiation with a one-space run after
`import`, a newline after the brace, a space after the comma and no whitespace
before the closing brace. -/
theorem claim_C10_witness :
    ([' '] : List Char) ≠ [] ∧
    (reSubAll matchPat1 replIns
        (importShape useEffectLit useStateLit [' '] ['\n'] [' '] []) =
      importShape useEffectLit useStateLit [' '] ['\n'] [' '] [] ++ replIns ∧
    reSubAll matchPat2 replIns
        (importShape useStateLit useEffectLit [' '] ['\n'] [' '] []) =
      importShape useStateLit useEffectLit [' '] ['\n'] [' '] [] ++ replIns ∧
    reSubAll matchPat1 replIns
      "import \x7buseEffect,useState\x7d;\nimport \x7b\n  useEffect,\n  useState\n\x7d;".toList =
      "import \x7buseEffect,useState\x7d, useCallback\x7d;\nimport \x7b\n  useEffect,\n  useState\n\x7d, useCallback\x7d;".toList) :=
  ⟨by decide, claim_C10 [' '] ['\n'] [' '] [] (by decide) (by decide) (by decide)
    (by decide) (by decide)⟩
